import Mathlib

/-!
# Verification of the CSDS-395 résumé-processing core

Shallow embedding of `src/utils/resume_utils.py` (class `ResumeClassifier`:
`clean_resume`, `classify_resume`) and `src/utils/skills_utils.py`
(class `SkillsExtractor`: `__init__`, `extract_skills`).

Python strings are modelled as `List Char`.  The external collaborators —
the spaCy language engine, the compiled regular-expression patterns, the
SentenceTransformer embedder and the fitted sklearn model — are opaque
services; they are modelled as function-valued fields of a context
structure, while every line of control flow of the repository's own code
is translated directly.  A compiled regex pattern is modelled by the list
of non-overlapping match spans it reports on a given text (what
`re.finditer` / `re.sub` traverse), and `pattern.sub(repl, text)` is the
concrete splicing of the replacement at those spans.
-/

/-- Python `str` contents, one `Char` per code point. -/
abbrev Str := List Char

/-- A Python value passed where `clean_resume` expects a string: either an
actual string or a non-string carrying its type name (all that line 108 of
`resume_utils.py` inspects). -/
inductive PyVal where
  | str (s : Str)
  | other (typeName : String)
deriving DecidableEq

/-- The raise sites of `resume_utils.py`, one constructor per site, each
carrying the data interpolated into the exception message:
`TypeError(f"Expected str, got {type(resume).__name__}.")`,
`ValueError("Resume text is empty.")`,
`ValueError(f"top_k must be between 1 and {n_classes}, got {top_k}.")`. -/
inductive PyErr where
  | typeError (got : String)
  | emptyError
  | rangeError (bound : Int) (got : Int)
deriving DecidableEq

/-- ASCII model of Python's `\s` class: space, tab, newline, carriage
return, vertical tab, form feed. -/
def isPyWs (c : Char) : Bool :=
  c = ' ' || c = '\t' || c = '\n' || c = '\r' || c = '\x0b' || c = '\x0c'

/-- The character class kept by line 112 of `resume_utils.py`: the regex
substitution there deletes every character that is not an ASCII letter, a
digit, whitespace, or one of `.` `,` `-` `/` `(` `)` `@` `+`. -/
def keepChar (c : Char) : Bool :=
  ('a' ≤ c && c ≤ 'z') || ('A' ≤ c && c ≤ 'Z') || ('0' ≤ c && c ≤ '9') ||
  isPyWs c ||
  c = '.' || c = ',' || c = '-' || c = '/' || c = '(' || c = ')' ||
  c = '@' || c = '+'

/-- `re.sub(r'\s+', ' ', text)`: every maximal whitespace run becomes one
space.  The flag records whether the previous character was whitespace
(i.e. whether we are inside a run whose single space was already
emitted). -/
def collapseWsAux : Bool → Str → Str
  | _, [] => []
  | prevWs, c :: rest =>
    if isPyWs c then
      if prevWs then collapseWsAux true rest
      else ' ' :: collapseWsAux true rest
    else c :: collapseWsAux false rest

/-- `re.sub(r'\s+', ' ', text)` on a whole string. -/
def collapseWs (s : Str) : Str := collapseWsAux false s

/-- Python `str.strip()`: remove leading and trailing whitespace. -/
def pyStrip (s : Str) : Str :=
  ((s.dropWhile isPyWs).reverse.dropWhile isPyWs).reverse

/-- A compiled regex pattern, modelled by the spans (start, end), in
character offsets, of the non-overlapping matches it reports on a text —
the sequence `re.sub` substitutes, left to right. -/
def Pattern := Str → List (Nat × Nat)

/-- The literal replacement token `f'[{label}]'`. -/
def bracket (label : String) : Str := '[' :: (label.data ++ [']'])

/-- Substitute `repl` at each listed span, scanning left to right the way
`re.sub` does: `pos` is the original-text offset at which the remaining
suffix `s` starts, and each span `(a, b)` is given in original-text
offsets. -/
def substSpansAux (repl : Str) : List (Nat × Nat) → Nat → Str → Str
  | [], _, s => s
  | (a, b) :: rest, pos, s =>
    s.take (a - pos) ++ repl ++ substSpansAux repl rest b (s.drop (b - pos))

/-- Substitute `repl` at each listed span of the text. -/
def substSpans (repl : Str) (spans : List (Nat × Nat)) (s : Str) : Str :=
  substSpansAux repl spans 0 s

/-- `pattern.sub(f'[{label}]', text)`: replace every non-overlapping match
of the pattern with the bracketed label token. -/
def patternSub (label : String) (p : Pattern) (s : Str) : Str :=
  substSpans (bracket label) (p s) s

/-- One spaCy entity span as `clean_resume` consumes it:
`ent.start_char`, `ent.end_char`, `ent.label_`. -/
structure EntitySpan where
  start_char : Nat
  end_char : Nat
  label_ : String
deriving DecidableEq

/-- `text[:ent.start_char] + f"[{ent.label_}]" + text[ent.end_char:]`. -/
def splice (t : Str) (a b : Nat) (r : Str) : Str :=
  t.take a ++ r ++ t.drop b

/-- The state of a `ResumeClassifier` instance after `__init__`: the five
compiled PII patterns (their regex source is opaque, their order is the
declaration order of the `pii_patterns` dict), the NER entity extractor
`doc.ents` of the loaded spaCy model, the configured allow-list
`self.entities`, the SentenceTransformer `encode` and the sklearn model's
`classes_` and `decision_function`. -/
structure ResumeClassifier where
  addressPat : Pattern
  phonePat : Pattern
  zipPat : Pattern
  poboxPat : Pattern
  emailPat : Pattern
  nlpEnts : Str → List EntitySpan
  entities : List String
  classes : List String
  embed : Str → List Int
  decisionFunction : List Int → List Int

/-- The `self.pii_patterns` dict in its insertion order (Python 3.7+ dicts
iterate in insertion order): ADDRESS, PHONE, ZIP, POBOX, EMAIL. -/
def piiPatterns (ctx : ResumeClassifier) : List (String × Pattern) :=
  [("ADDRESS", ctx.addressPat), ("PHONE", ctx.phonePat),
   ("ZIP", ctx.zipPat), ("POBOX", ctx.poboxPat), ("EMAIL", ctx.emailPat)]

/-- Lines 115–116: `for label, pattern in self.pii_patterns.items():
text = pattern.sub(f'[{label}]', text)`. -/
def regexStage (ctx : ResumeClassifier) (t : Str) : Str :=
  (piiPatterns ctx).foldl (fun text lp => patternSub lp.1 lp.2 text) t

/-- Lines 118–121: `for ent in reversed(doc.ents): if ent.label_ in
self.entities: text = text[:ent.start_char] + f"[{ent.label_}]" +
text[ent.end_char:]`. -/
def entityStage (allow : List String) (ents : List EntitySpan) (t : Str) : Str :=
  ents.reverse.foldl
    (fun text e =>
      if e.label_ ∈ allow then
        splice text e.start_char e.end_char (bracket e.label_)
      else text)
    t

/-- Lines 112–113 of `clean_resume`: strip disallowed characters, collapse
whitespace runs, trim. -/
def normalizeText (s : Str) : Str := pyStrip (collapseWs (s.filter keepChar))

/-- `ResumeClassifier.clean_resume` (lines 107–123). -/
def clean_resume (ctx : ResumeClassifier) (resume : PyVal) : Except PyErr Str :=
  match resume with
  | .other tn => .error (.typeError tn)
  | .str s =>
    if (pyStrip s).isEmpty then .error .emptyError
    else
      let text1 := normalizeText s
      let text2 := regexStage ctx text1
      .ok (entityStage ctx.entities (ctx.nlpEnts text2) text2)

/-- The ascending comparison `np.argsort` sorts index `i` before index `j`
under: smaller score first and, at equal scores, smaller index first (the
stable tie order; NumPy's introsort falls back to a stable insertion sort
below 16 elements, and the model at hand has 12 classes). -/
def argLe (p : List Int) (i j : Nat) : Prop :=
  p.getD i 0 < p.getD j 0 ∨ (p.getD i 0 = p.getD j 0 ∧ i ≤ j)

instance (p : List Int) : DecidableRel (argLe p) := fun i j => by
  unfold argLe; infer_instance

instance (p : List Int) : IsTotal Nat (argLe p) where
  total i j := by
    unfold argLe
    rcases lt_trichotomy (p.getD i 0) (p.getD j 0) with h | h | h
    · exact Or.inl (Or.inl h)
    · rcases Nat.le_total i j with hij | hij
      · exact Or.inl (Or.inr ⟨h, hij⟩)
      · exact Or.inr (Or.inr ⟨h.symm, hij⟩)
    · exact Or.inr (Or.inl h)

instance (p : List Int) : IsTrans Nat (argLe p) where
  trans i j k hij hjk := by
    unfold argLe at *
    rcases hij with h1 | ⟨h1, h1'⟩
    · rcases hjk with h2 | ⟨h2, _⟩
      · exact Or.inl (h1.trans h2)
      · exact Or.inl (h2 ▸ h1)
    · rcases hjk with h2 | ⟨h2, h2'⟩
      · exact Or.inl (h1 ▸ h2)
      · exact Or.inr ⟨h1.trans h2, h1'.trans h2'⟩

/-- `np.argsort(proba)`: the indices `0 … len(proba)-1` sorted ascending
by score (stable tie order). -/
def argsort (p : List Int) : List Nat :=
  List.insertionSort (argLe p) (List.range p.length)

/-- `np.argsort(proba)[::-1][:top_k]`. -/
def topkIndices (p : List Int) (k : Nat) : List Nat :=
  ((argsort p).reverse).take k

/-- `ResumeClassifier.classify_resume` (lines 143–151).  `top_k` is a
Python `int`, hence `Int` here. -/
def classify_resume (ctx : ResumeClassifier) (resume : PyVal) (top_k : Int) :
    Except PyErr (List String) :=
  let n : Int := ctx.classes.length
  if 1 ≤ top_k ∧ top_k ≤ n then
    match clean_resume ctx resume with
    | .error e => .error e
    | .ok cleaned =>
      let proba := ctx.decisionFunction (ctx.embed cleaned)
      .ok ((topkIndices proba top_k.toNat).map (fun i => ctx.classes.getD i ""))
  else .error (.rangeError n top_k)

/-! ## SkillsExtractor (`src/utils/skills_utils.py`) -/

/-- What `extract_skills` reads off a processed spaCy doc: the surface
text of a token span `doc[start:end].text` and the sentence text of the
sentence containing a token, `doc[start].sent.text`. -/
structure SkillsDoc where
  spanText : Nat → Nat → Str
  sentText : Nat → Str

/-- A `SkillsExtractor` instance after `__init__`: the processing engine
`self.nlp` (text to doc) and the phrase matcher `self.matcher`, whose
matches are `(match_id, start, end)` triples over token indices. -/
structure SkillsExtractor where
  nlpDoc : Str → SkillsDoc
  matcher : SkillsDoc → List (Nat × Nat × Nat)

/-- `str.lower()` on the model's ASCII fragment. -/
def lowerStr (s : Str) : Str := s.map Char.toLower

/-- The loop of `extract_skills` (lines 42–46): `seen` is the dedup set,
`results` the insertion-ordered dict, represented as an association
list. -/
def extract_go (d : SkillsDoc) :
    List (Nat × Nat × Nat) → List Str → List (Str × Str) → List (Str × Str)
  | [], _, results => results
  | (_, s, e) :: ms, seen, results =>
    let skill := lowerStr (d.spanText s e)
    if skill ∈ seen then extract_go d ms seen results
    else extract_go d ms (skill :: seen)
           (results ++ [(skill, pyStrip (d.sentText s))])

/-- `SkillsExtractor.extract_skills` (lines 37–47). -/
def extract_skills (ex : SkillsExtractor) (text : Str) : List (Str × Str) :=
  let doc := ex.nlpDoc text
  extract_go doc (ex.matcher doc) [] []

/-- The effect of `SkillsExtractor.__init__` (lines 32–33) on the engine's
pipe-name list: `if not nlp.has_pipe("sentencizer"):
nlp.add_pipe("sentencizer", first=True)`. -/
def initSentencizer (pipes : List String) : List String :=
  if "sentencizer" ∈ pipes then pipes else "sentencizer" :: pipes

deriving instance DecidableEq for Except

/-! ## Concrete instances used by the witnesses -/

/-- A tiny concrete classifier state: no regex matches, no entities,
two classes with equal margins. -/
def ctxTie : ResumeClassifier where
  addressPat := fun _ => []
  phonePat := fun _ => []
  zipPat := fun _ => []
  poboxPat := fun _ => []
  emailPat := fun _ => []
  nlpEnts := fun _ => []
  entities := ["PERSON"]
  classes := ["A", "B"]
  embed := fun _ => []
  decisionFunction := fun _ => [5, 5]

/-! ## Helper lemmas -/

lemma isEmpty_eq_false_of_ne {s : Str} (h : pyStrip s ≠ []) :
    (pyStrip s).isEmpty = false := by
  cases hs : pyStrip s with
  | nil => exact absurd hs h
  | cons a l => rfl

/-- `count = 1` means the sentencizer is already present, so `__init__`
leaves the pipeline unchanged. -/
lemma initSentencizer_of_count_one {p : List String}
    (h : p.count "sentencizer" = 1) : initSentencizer p = p := by
  unfold initSentencizer
  rw [if_pos (List.count_pos_iff.mp (by omega))]

lemma initSentencizer_count {p : List String}
    (h : p.count "sentencizer" ≤ 1) :
    (initSentencizer p).count "sentencizer" = 1 := by
  unfold initSentencizer
  by_cases hm : "sentencizer" ∈ p
  · rw [if_pos hm]
    have := List.count_pos_iff.mpr hm
    omega
  · rw [if_neg hm, List.count_cons_self, List.count_eq_zero.mpr hm]

/-! ## C6 -/

/-- C6: `clean_resume` fails with the non-string `TypeError` for every
non-string input, fails with the empty-text `ValueError` for every string
that is empty after stripping whitespace, and returns normally on every
other string. -/
theorem C6_clean_validation (ctx : ResumeClassifier) (tn : String) (s : Str) :
    clean_resume ctx (.other tn) = .error (.typeError tn) ∧
    (pyStrip s = [] → clean_resume ctx (.str s) = .error .emptyError) ∧
    (pyStrip s ≠ [] → ∃ out, clean_resume ctx (.str s) = .ok out) := by
  refine ⟨rfl, fun h => ?_, fun h => ?_⟩
  · simp [clean_resume, h]
  · exact ⟨entityStage ctx.entities (ctx.nlpEnts (regexStage ctx (normalizeText s)))
      (regexStage ctx (normalizeText s)),
      by simp [clean_resume, isEmpty_eq_false_of_ne h]⟩

/-- Witness for C6 at a concrete non-string, a whitespace-only string and
(via the same theorem at a second instantiation inside the conjunction)
nothing further. -/
theorem C6_clean_validation_witness :
    clean_resume ctxTie (.other "int") = .error (.typeError "int") ∧
    (pyStrip " \t ".data = [] → clean_resume ctxTie (.str " \t ".data) = .error .emptyError) ∧
    (pyStrip " \t ".data ≠ [] → ∃ out, clean_resume ctxTie (.str " \t ".data) = .ok out) :=
  C6_clean_validation ctxTie "int" " \t ".data

/-! ## C10 -/

/-- C10: `classify_resume` checks the `top_k` range before any input
validation — an out-of-range `top_k` yields the range `ValueError` for
every input, valid or not — and, for in-range `top_k`, every validation
error of the internal `clean_resume` call propagates unchanged. -/
theorem C10_classify_propagates_clean_errors (ctx : ResumeClassifier)
    (v : PyVal) (k : Int) :
    (¬(1 ≤ k ∧ k ≤ (ctx.classes.length : Int)) →
      classify_resume ctx v k = .error (.rangeError ctx.classes.length k)) ∧
    ((1 ≤ k ∧ k ≤ (ctx.classes.length : Int)) →
      ∀ e, clean_resume ctx v = .error e →
        classify_resume ctx v k = .error e) := by
  constructor
  · intro h
    simp [classify_resume, h]
  · intro h e he
    simp [classify_resume, h, he]

/-- Witness for C10: out-of-range `top_k = 0` on a non-string input still
reports the range error; in-range `top_k = 1` propagates the `TypeError`. -/
theorem C10_classify_propagates_clean_errors_witness :
    (¬(1 ≤ (0 : Int) ∧ (0 : Int) ≤ (ctxTie.classes.length : Int)) →
      classify_resume ctxTie (.other "list") 0 =
        .error (.rangeError ctxTie.classes.length 0)) ∧
    ((1 ≤ (0 : Int) ∧ (0 : Int) ≤ (ctxTie.classes.length : Int)) →
      ∀ e, clean_resume ctxTie (.other "list") = .error e →
        classify_resume ctxTie (.other "list") 0 = .error e) :=
  C10_classify_propagates_clean_errors ctxTie (.other "list") 0

/-! ## C8 -/

/-- C8: `SkillsExtractor.__init__` installs the sentencizer idempotently:
if absent it prepends exactly one, if present it changes nothing, and any
positive number of constructions over the same engine leaves exactly one
sentencizer stage. -/
theorem C8_sentencizer_idempotent (pipes : List String) :
    ("sentencizer" ∉ pipes → initSentencizer pipes = "sentencizer" :: pipes) ∧
    ("sentencizer" ∈ pipes → initSentencizer pipes = pipes) ∧
    (pipes.count "sentencizer" ≤ 1 → ∀ n, 1 ≤ n →
      (initSentencizer^[n] pipes).count "sentencizer" = 1) := by
  refine ⟨fun h => by simp [initSentencizer, h], fun h => by simp [initSentencizer, h], fun h n hn => ?_⟩
  induction n with
  | zero => omega
  | succ m ih =>
    rcases Nat.eq_or_lt_of_le hn with h1 | h1
    · rw [← h1]
      simpa using initSentencizer_count h
    · rw [Function.iterate_succ_apply']
      have hm := ih (by omega)
      rw [initSentencizer_of_count_one hm]
      exact hm

/-- Witness for C8 on a concrete pipeline without a sentencizer. -/
theorem C8_sentencizer_idempotent_witness :
    ("sentencizer" ∉ ["tok2vec", "ner"] →
      initSentencizer ["tok2vec", "ner"] = "sentencizer" :: ["tok2vec", "ner"]) ∧
    ("sentencizer" ∈ ["tok2vec", "ner"] →
      initSentencizer ["tok2vec", "ner"] = ["tok2vec", "ner"]) ∧
    (List.count "sentencizer" ["tok2vec", "ner"] ≤ 1 → ∀ n, 1 ≤ n →
      (initSentencizer^[n] ["tok2vec", "ner"]).count "sentencizer" = 1) :=
  C8_sentencizer_idempotent ["tok2vec", "ner"]

/-! ## C4 -/

lemma clean_resume_embed_irrel (ctx : ResumeClassifier) (f : Str → List Int)
    (v : PyVal) : clean_resume { ctx with embed := f } v = clean_resume ctx v := rfl

/-- C4: the embedding service is consulted only at the output of the
internal `clean_resume` call — two embedders that agree on the cleaned
text give identical classifications, for every input and every `top_k`,
so the raw (unredacted) input never influences the embedding surface. -/
theorem C4_embed_sees_only_cleaned (ctx : ResumeClassifier)
    (f g : Str → List Int) (v : PyVal) (k : Int) (cleaned : Str)
    (hc : clean_resume ctx v = .ok cleaned) (hfg : f cleaned = g cleaned) :
    classify_resume { ctx with embed := f } v k =
      classify_resume { ctx with embed := g } v k := by
  simp only [classify_resume, clean_resume_embed_irrel, hc, hfg]

/-- Witness for C4: two embedders that agree on the cleaned text but
differ on the raw text classify identically. -/
theorem C4_embed_sees_only_cleaned_witness :
    clean_resume ctxTie (.str "John x".data) = .ok "John x".data ∧
    (fun s => if s = "John x".data then [3, 7] else [9, 9]) "John x".data =
      (fun _ : Str => [3, 7]) "John x".data ∧
    classify_resume
        { ctxTie with embed := fun s => if s = "John x".data then [3, 7] else [9, 9] }
        (.str "John x".data) 1 =
      classify_resume { ctxTie with embed := fun _ => [3, 7] }
        (.str "John x".data) 1 :=
  ⟨by decide, by decide,
    C4_embed_sees_only_cleaned ctxTie _ _ (.str "John x".data) 1 "John x".data
      (by decide) (by decide)⟩

/-! ## C1 -/

/-- C1: for every string input that survives validation, `clean_resume`
applies the five regex rules in the declared order ADDRESS, PHONE, ZIP,
POBOX, EMAIL over the normalized text, and only the fully
regex-substituted text is handed to the NER engine for entity redaction —
the regex stage completes before the entity stage begins, so a
PHONE-shaped digit run is already `[PHONE]` when the engine looks for
PERSON spans. -/
theorem C1_regex_order_before_ner (ctx : ResumeClassifier) (s : Str)
    (h : pyStrip s ≠ []) :
    clean_resume ctx (.str s) =
      .ok (entityStage ctx.entities
        (ctx.nlpEnts
          (patternSub "EMAIL" ctx.emailPat
            (patternSub "POBOX" ctx.poboxPat
              (patternSub "ZIP" ctx.zipPat
                (patternSub "PHONE" ctx.phonePat
                  (patternSub "ADDRESS" ctx.addressPat (normalizeText s)))))))
        (patternSub "EMAIL" ctx.emailPat
          (patternSub "POBOX" ctx.poboxPat
            (patternSub "ZIP" ctx.zipPat
              (patternSub "PHONE" ctx.phonePat
                (patternSub "ADDRESS" ctx.addressPat (normalizeText s))))))) := by
  simp [clean_resume, isEmpty_eq_false_of_ne h, regexStage, piiPatterns]

/-- A concrete classifier whose PHONE pattern matches the digit run of the
normalized text `call 5551234 now` and whose NER engine reports a PERSON
span wherever it is asked; the digits are replaced by `[PHONE]` before the
engine ever sees the text. -/
def ctxPhone : ResumeClassifier where
  addressPat := fun _ => []
  phonePat := fun s => if s = "call 5551234 now".data then [(5, 12)] else []
  zipPat := fun _ => []
  poboxPat := fun _ => []
  emailPat := fun _ => []
  nlpEnts := fun _ => []
  entities := ["PERSON"]
  classes := ["A", "B"]
  embed := fun _ => []
  decisionFunction := fun _ => [5, 5]

/-- Witness for C1 at the concrete phone-number input. -/
theorem C1_regex_order_before_ner_witness :
    pyStrip "call 5551234 now".data ≠ [] ∧
    clean_resume ctxPhone (.str "call 5551234 now".data) =
      .ok (entityStage ctxPhone.entities
        (ctxPhone.nlpEnts
          (patternSub "EMAIL" ctxPhone.emailPat
            (patternSub "POBOX" ctxPhone.poboxPat
              (patternSub "ZIP" ctxPhone.zipPat
                (patternSub "PHONE" ctxPhone.phonePat
                  (patternSub "ADDRESS" ctxPhone.addressPat
                    (normalizeText "call 5551234 now".data)))))))
        (patternSub "EMAIL" ctxPhone.emailPat
          (patternSub "POBOX" ctxPhone.poboxPat
            (patternSub "ZIP" ctxPhone.zipPat
              (patternSub "PHONE" ctxPhone.phonePat
                (patternSub "ADDRESS" ctxPhone.addressPat
                  (normalizeText "call 5551234 now".data))))))) :=
  ⟨by decide, C1_regex_order_before_ner ctxPhone "call 5551234 now".data (by decide)⟩

/-! ## C3 and C5: the ranking stage -/

lemma argsort_perm (p : List Int) :
    List.Perm (argsort p) (List.range p.length) :=
  List.perm_insertionSort _ _

lemma mem_argsort_lt {p : List Int} {i : Nat} (h : i ∈ argsort p) :
    i < p.length :=
  List.mem_range.mp ((argsort_perm p).mem_iff.mp h)

lemma argsort_sorted (p : List Int) : List.Sorted (argLe p) (argsort p) :=
  List.sorted_insertionSort _ _

lemma argsort_length (p : List Int) : (argsort p).length = p.length := by
  rw [(argsort_perm p).length_eq, List.length_range]

lemma topkIndices_length {p : List Int} {k : Nat} (h : k ≤ p.length) :
    (topkIndices p k).length = k := by
  simp [topkIndices, argsort_length, h]

lemma mem_topkIndices_lt {p : List Int} {k i : Nat}
    (h : i ∈ topkIndices p k) : i < p.length :=
  mem_argsort_lt (List.mem_reverse.mp ((List.take_sublist _ _).mem h))

lemma topkIndices_pairwise (p : List Int) (k : Nat) :
    (topkIndices p k).Pairwise (fun i j => argLe p j i) :=
  ((List.pairwise_reverse.mpr (argsort_sorted p)).sublist
    (List.take_sublist _ _))

/-- C3: with in-range `top_k` (and the ranking model honouring its
one-score-per-class contract), `classify_resume` returns exactly `top_k`
labels, each drawn from the model's class list, ordered by descending
margin; out-of-range `top_k` yields the range error carrying the valid
bound. -/
theorem C3_classify_topk_contract (ctx : ResumeClassifier) (v : PyVal)
    (k : Int) (cleaned : Str) (hc : clean_resume ctx v = .ok cleaned)
    (hlen : (ctx.decisionFunction (ctx.embed cleaned)).length =
      ctx.classes.length) :
    ((1 ≤ k ∧ k ≤ (ctx.classes.length : Int)) →
      ∃ idxs : List Nat,
        classify_resume ctx v k =
          .ok (idxs.map (fun i => ctx.classes.getD i "")) ∧
        (idxs.map (fun i => ctx.classes.getD i "")).length = k.toNat ∧
        (∀ l ∈ idxs.map (fun i => ctx.classes.getD i ""), l ∈ ctx.classes) ∧
        idxs.Pairwise (fun i j =>
          (ctx.decisionFunction (ctx.embed cleaned)).getD j 0 ≤
            (ctx.decisionFunction (ctx.embed cleaned)).getD i 0)) ∧
    (¬(1 ≤ k ∧ k ≤ (ctx.classes.length : Int)) →
      classify_resume ctx v k = .error (.rangeError ctx.classes.length k)) := by
  constructor
  · intro hk
    set p := ctx.decisionFunction (ctx.embed cleaned) with hp
    have hkn : k.toNat ≤ p.length := by
      rw [hlen]; omega
    refine ⟨topkIndices p k.toNat, ?_, ?_, ?_, ?_⟩
    · simp [classify_resume, hk, hc]
    · rw [List.length_map, topkIndices_length hkn]
    · intro l hl
      rcases List.mem_map.mp hl with ⟨i, hi, rfl⟩
      have hilt : i < ctx.classes.length := hlen ▸ mem_topkIndices_lt hi
      rw [List.getD_eq_getElem _ _ hilt]
      exact List.getElem_mem hilt
    · exact (topkIndices_pairwise p k.toNat).imp (fun h => by
        rcases h with h | ⟨h, _⟩
        · exact le_of_lt h
        · exact le_of_eq h)
  · intro hk
    simp [classify_resume, hk]

/-- Witness for C3 at the tie context, `top_k = 1`. -/
theorem C3_classify_topk_contract_witness :
    clean_resume ctxTie (.str "x resume".data) = .ok "x resume".data ∧
    (ctxTie.decisionFunction (ctxTie.embed "x resume".data)).length =
      ctxTie.classes.length ∧
    (((1 ≤ (1 : Int) ∧ (1 : Int) ≤ (ctxTie.classes.length : Int)) →
      ∃ idxs : List Nat,
        classify_resume ctxTie (.str "x resume".data) 1 =
          .ok (idxs.map (fun i => ctxTie.classes.getD i "")) ∧
        (idxs.map (fun i => ctxTie.classes.getD i "")).length = (1 : Int).toNat ∧
        (∀ l ∈ idxs.map (fun i => ctxTie.classes.getD i ""),
          l ∈ ctxTie.classes) ∧
        idxs.Pairwise (fun i j =>
          (ctxTie.decisionFunction (ctxTie.embed "x resume".data)).getD j 0 ≤
            (ctxTie.decisionFunction (ctxTie.embed "x resume".data)).getD i 0)) ∧
    (¬(1 ≤ (1 : Int) ∧ (1 : Int) ≤ (ctxTie.classes.length : Int)) →
      classify_resume ctxTie (.str "x resume".data) 1 =
        .error (.rangeError ctxTie.classes.length 1))) :=
  ⟨by decide, by decide,
    C3_classify_topk_contract ctxTie (.str "x resume".data) 1 "x resume".data
      (by decide) (by decide)⟩

/-- C5 counterexample: two classes `A`, `B` (native order `A` before `B`)
with equal margins.  The code reverses a stable ascending argsort, so the
returned order is `["B", "A"]` — the REVERSE of the model's native class
order, refuting the claim that equal-margin classes appear in native
order. -/
theorem C5_counterexample_reverse_tie_order :
    classify_resume ctxTie (.str "x resume".data) 2 = .ok ["B", "A"] ∧
    ["B", "A"] ≠ ["A", "B"] :=
  ⟨by decide, by decide⟩

/-- C5 amended: the result is a deterministic function of the context and
input, and equal-margin classes appear in REVERSE native order — the
returned index sequence is sorted under the flip of the stable ascending
argsort order: strictly larger margin first and, at equal margins, the
larger native index first. -/
theorem C5_amended_tie_break (ctx : ResumeClassifier) (v : PyVal)
    (k : Int) (cleaned : Str) (hc : clean_resume ctx v = .ok cleaned)
    (hk : 1 ≤ k ∧ k ≤ (ctx.classes.length : Int)) :
    ∃ idxs : List Nat,
      classify_resume ctx v k =
        .ok (idxs.map (fun i => ctx.classes.getD i "")) ∧
      idxs.Pairwise (fun i j =>
        (ctx.decisionFunction (ctx.embed cleaned)).getD j 0 <
          (ctx.decisionFunction (ctx.embed cleaned)).getD i 0 ∨
        ((ctx.decisionFunction (ctx.embed cleaned)).getD i 0 =
          (ctx.decisionFunction (ctx.embed cleaned)).getD j 0 ∧ j ≤ i)) := by
  refine ⟨topkIndices (ctx.decisionFunction (ctx.embed cleaned)) k.toNat,
    by simp [classify_resume, hk, hc], ?_⟩
  exact (topkIndices_pairwise _ _).imp (fun h => by
    rcases h with h | ⟨h, h'⟩
    · exact Or.inl h
    · exact Or.inr ⟨h.symm, h'⟩)

/-- Witness for the amended C5 at the tie context. -/
theorem C5_amended_tie_break_witness :
    clean_resume ctxTie (.str "x resume".data) = .ok "x resume".data ∧
    (1 ≤ (2 : Int) ∧ (2 : Int) ≤ (ctxTie.classes.length : Int)) ∧
    ∃ idxs : List Nat,
      classify_resume ctxTie (.str "x resume".data) 2 =
        .ok (idxs.map (fun i => ctxTie.classes.getD i "")) ∧
      idxs.Pairwise (fun i j =>
        (ctxTie.decisionFunction (ctxTie.embed "x resume".data)).getD j 0 <
          (ctxTie.decisionFunction (ctxTie.embed "x resume".data)).getD i 0 ∨
        ((ctxTie.decisionFunction (ctxTie.embed "x resume".data)).getD i 0 =
          (ctxTie.decisionFunction (ctxTie.embed "x resume".data)).getD j 0 ∧
          j ≤ i)) :=
  ⟨by decide, by decide,
    C5_amended_tie_break ctxTie (.str "x resume".data) 2 "x resume".data
      (by decide) (by decide)⟩

/-! ## C7: skill extraction deduplication -/

/-- The dedup key of a phrase match: `doc[start:end].text.lower()`. -/
def matchKey (d : SkillsDoc) (m : Nat × Nat × Nat) : Str :=
  lowerStr (d.spanText m.2.1 m.2.2)

/-- The recorded value of a phrase match: `doc[start].sent.text.strip()`. -/
def matchVal (d : SkillsDoc) (m : Nat × Nat × Nat) : Str :=
  pyStrip (d.sentText m.2.1)

lemma lookup_cons_ne {a : Str × Str} {l : List (Str × Str)} {k : Str}
    (h : k ≠ a.1) : (a :: l).lookup k = l.lookup k := by
  show (match k == a.1 with | true => some a.2 | false => l.lookup k) = _
  rw [beq_false_of_ne h]

lemma lookup_cons_self {a : Str × Str} {l : List (Str × Str)} :
    (a :: l).lookup a.1 = some a.2 := by
  show (match a.1 == a.1 with | true => some a.2 | false => l.lookup a.1) = _
  rw [beq_self_eq_true]

lemma lookup_eq_none_of_not_mem {results : List (Str × Str)} {k : Str}
    (h : k ∉ results.map Prod.fst) : results.lookup k = none := by
  induction results with
  | nil => rfl
  | cons a rest ih =>
    simp only [List.map_cons, List.mem_cons, not_or] at h
    rw [lookup_cons_ne h.1]
    exact ih h.2

lemma lookup_append_left {l₁ l₂ : List (Str × Str)} {k : Str}
    (h : k ∈ l₁.map Prod.fst) : (l₁ ++ l₂).lookup k = l₁.lookup k := by
  induction l₁ with
  | nil => simp at h
  | cons a rest ih =>
    by_cases he : k = a.1
    · subst he
      rw [List.cons_append, lookup_cons_self, lookup_cons_self]
    · simp only [List.map_cons, List.mem_cons, he, false_or] at h
      rw [List.cons_append, lookup_cons_ne he, lookup_cons_ne he]
      exact ih h

lemma lookup_append_right {l₁ l₂ : List (Str × Str)} {k : Str}
    (h : k ∉ l₁.map Prod.fst) : (l₁ ++ l₂).lookup k = l₂.lookup k := by
  induction l₁ with
  | nil => rfl
  | cons a rest ih =>
    simp only [List.map_cons, List.mem_cons, not_or] at h
    rw [List.cons_append, lookup_cons_ne h.1]
    exact ih h.2

lemma extract_go_lookup (d : SkillsDoc) (ms : List (Nat × Nat × Nat)) :
    ∀ (seen : List Str) (results : List (Str × Str)) (key : Str),
    (∀ x, x ∈ seen ↔ x ∈ results.map Prod.fst) →
    (extract_go d ms seen results).lookup key =
      if key ∈ results.map Prod.fst then results.lookup key
      else (ms.find? (fun m => matchKey d m == key)).map (matchVal d) := by
  induction ms with
  | nil =>
    intro seen results key hinv
    by_cases h : key ∈ results.map Prod.fst
    · simp [extract_go, h]
    · simp [extract_go, h, lookup_eq_none_of_not_mem h]
  | cons m ms' ih =>
    intro seen results key hinv
    obtain ⟨mid, s0, e0⟩ := m
    have hkey : matchKey d (mid, s0, e0) = lowerStr (d.spanText s0 e0) := rfl
    show (if lowerStr (d.spanText s0 e0) ∈ seen then
        extract_go d ms' seen results
      else extract_go d ms' (lowerStr (d.spanText s0 e0) :: seen)
        (results ++ [(lowerStr (d.spanText s0 e0),
          pyStrip (d.sentText s0))])).lookup key = _
    by_cases hs : lowerStr (d.spanText s0 e0) ∈ seen
    · rw [if_pos hs, ih seen results key hinv]
      by_cases h : key ∈ results.map Prod.fst
      · rw [if_pos h, if_pos h]
      · rw [if_neg h, if_neg h]
        have hne : ¬(matchKey d (mid, s0, e0) = key) := by
          intro he
          exact h ((hinv key).mp ((hkey.symm.trans he) ▸ hs))
        rw [List.find?_cons_of_neg _ (by simpa using hne)]
    · rw [if_neg hs]
      have hinv' : ∀ x, x ∈ lowerStr (d.spanText s0 e0) :: seen ↔
          x ∈ (results ++ [(lowerStr (d.spanText s0 e0),
            pyStrip (d.sentText s0))]).map Prod.fst := by
        intro x
        simp only [List.mem_cons, List.map_append, List.mem_append,
          List.map_cons, List.map_nil, List.mem_singleton, hinv x]
        tauto
      rw [ih _ _ key hinv']
      by_cases h : key ∈ results.map Prod.fst
      · have hm : key ∈ (results ++ [(lowerStr (d.spanText s0 e0),
            pyStrip (d.sentText s0))]).map Prod.fst := by
          rw [List.map_append, List.mem_append]; exact Or.inl h
        rw [if_pos hm, if_pos h, lookup_append_left h]
      · by_cases he : key = lowerStr (d.spanText s0 e0)
        · have hm : key ∈ (results ++ [(lowerStr (d.spanText s0 e0),
              pyStrip (d.sentText s0))]).map Prod.fst := by
            rw [List.map_append, List.mem_append]
            exact Or.inr (by simp [he])
          rw [if_pos hm, if_neg h, lookup_append_right h,
            List.find?_cons_of_pos _ (by simp [matchKey, he])]
          subst he
          rw [Option.map_some']
          exact @lookup_cons_self
            (lowerStr (d.spanText s0 e0), pyStrip (d.sentText s0)) []
        · have hm : key ∉ (results ++ [(lowerStr (d.spanText s0 e0),
              pyStrip (d.sentText s0))]).map Prod.fst := by
            rw [List.map_append, List.mem_append]
            rintro (hx | hx)
            · exact h hx
            · simp only [List.map_cons, List.map_nil,
                List.mem_singleton] at hx
              exact he hx
          rw [if_neg hm, if_neg h,
            List.find?_cons_of_neg _
              (by simpa [hkey] using fun hx => he hx.symm)]

lemma extract_go_nodup (d : SkillsDoc) (ms : List (Nat × Nat × Nat)) :
    ∀ (seen : List Str) (results : List (Str × Str)),
    (∀ x, x ∈ seen ↔ x ∈ results.map Prod.fst) →
    (results.map Prod.fst).Nodup →
    ((extract_go d ms seen results).map Prod.fst).Nodup := by
  induction ms with
  | nil => intro _ _ _ hn; exact hn
  | cons m ms' ih =>
    intro seen results hinv hn
    obtain ⟨mid, s0, e0⟩ := m
    show ((if lowerStr (d.spanText s0 e0) ∈ seen then
        extract_go d ms' seen results
      else extract_go d ms' (lowerStr (d.spanText s0 e0) :: seen)
        (results ++ [(lowerStr (d.spanText s0 e0),
          pyStrip (d.sentText s0))])).map Prod.fst).Nodup
    by_cases hs : lowerStr (d.spanText s0 e0) ∈ seen
    · rw [if_pos hs]; exact ih seen results hinv hn
    · rw [if_neg hs]
      refine ih _ _ (fun x => ?_) ?_
      · simp only [List.mem_cons, List.map_append, List.mem_append,
          List.map_cons, List.map_nil, List.mem_singleton, hinv x]
        tauto
      · rw [List.map_append, List.nodup_append]
        refine ⟨hn, by simp, ?_⟩
        simp only [List.map_cons, List.map_nil, List.disjoint_singleton]
        exact fun hx => hs ((hinv _).mpr hx)

/-- C7: `extract_skills` returns a duplicate-free mapping, and looking up
any key gives exactly the whitespace-stripped enclosing-sentence text of
the FIRST match in the matcher's output whose lowercased surface text is
that key (`none` when no match has that key); every later match with the
same surface form is discarded. -/
theorem C7_extract_dedup_first_wins (ex : SkillsExtractor) (text : Str) :
    ((extract_skills ex text).map Prod.fst).Nodup ∧
    ∀ key : Str,
      (extract_skills ex text).lookup key =
        ((ex.matcher (ex.nlpDoc text)).find?
          (fun m => matchKey (ex.nlpDoc text) m == key)).map
          (matchVal (ex.nlpDoc text)) := by
  constructor
  · exact extract_go_nodup _ _ [] [] (by simp) (by simp)
  · intro key
    rw [extract_skills, extract_go_lookup _ _ [] [] key (by simp)]
    simp

/-! ## C2: the entity pass equals simultaneous replacement -/

/-- Simultaneous replacement of entity spans, ascending, at their offsets
in the ORIGINAL text: `pos` is the original offset where the remaining
suffix `t` starts. -/
def spliceAllAux : List EntitySpan → Nat → Str → Str
  | [], _, t => t
  | e :: rest, pos, t =>
    t.take (e.start_char - pos) ++ bracket e.label_ ++
      spliceAllAux rest e.end_char (t.drop (e.end_char - pos))

/-- Replace every listed span (ascending, non-overlapping) with its
bracketed label at its original offset. -/
def spliceAllAsc (ents : List EntitySpan) (t : Str) : Str :=
  spliceAllAux ents 0 t

/-- The body of the entity loop of `clean_resume`. -/
def entStep (allow : List String) (e : EntitySpan) (text : Str) : Str :=
  if e.label_ ∈ allow then
    splice text e.start_char e.end_char (bracket e.label_)
  else text

lemma entityStage_eq_foldr (allow : List String) (ents : List EntitySpan)
    (t : Str) : entityStage allow ents t = ents.foldr (entStep allow) t := by
  rw [entityStage, List.foldl_reverse]
  rfl

/-- Splicing a suffix first: if every span starts at or after `k`, the
part of the text before `k` passes through untouched. -/
lemma spliceAllAux_take_drop (F : List EntitySpan) (pos k : Nat) (t : Str)
    (hpk : pos ≤ k)
    (hF : ∀ f ∈ F, k ≤ f.start_char ∧ f.start_char ≤ f.end_char) :
    spliceAllAux F pos t =
      t.take (k - pos) ++ spliceAllAux F k (t.drop (k - pos)) := by
  cases F with
  | nil =>
    show t = t.take (k - pos) ++ t.drop (k - pos)
    rw [List.take_append_drop]
  | cons f F' =>
    obtain ⟨h1, h2⟩ := hF f (List.mem_cons_self f F')
    show t.take (f.start_char - pos) ++ bracket f.label_ ++
        spliceAllAux F' f.end_char (t.drop (f.end_char - pos)) =
      t.take (k - pos) ++ ((t.drop (k - pos)).take (f.start_char - k) ++
        bracket f.label_ ++
        spliceAllAux F' f.end_char ((t.drop (k - pos)).drop (f.end_char - k)))
    have e1 : t.take (k - pos) ++ (t.drop (k - pos)).take (f.start_char - k) =
        t.take (f.start_char - pos) := by
      rw [← List.take_add]
      congr 1
      omega
    have e3 : k - pos + (f.end_char - k) = f.end_char - pos := by omega
    rw [List.drop_drop, e3, ← e1]
    simp [List.append_assoc]

lemma foldr_entStep_eq_spliceAllAsc (allow : List String) :
    ∀ (ents : List EntitySpan) (t : Str),
    ents.Pairwise (fun a b => a.end_char ≤ b.start_char) →
    (∀ e ∈ ents, e.start_char ≤ e.end_char ∧ e.end_char ≤ t.length) →
    ents.foldr (entStep allow) t =
      spliceAllAsc (ents.filter (fun e => e.label_ ∈ allow)) t := by
  intro ents
  induction ents with
  | nil => intro t _ _; rfl
  | cons e rest ih =>
    intro t hsort hwf
    have hrest_sort := (List.pairwise_cons.mp hsort).2
    have he_rest := (List.pairwise_cons.mp hsort).1
    obtain ⟨he1, he2⟩ := hwf e (List.mem_cons_self e rest)
    have hwf_rest : ∀ f ∈ rest, f.start_char ≤ f.end_char ∧
        f.end_char ≤ t.length :=
      fun f hf => hwf f (List.mem_cons_of_mem e hf)
    have hY := spliceAllAux_take_drop
      (rest.filter (fun f => f.label_ ∈ allow)) 0 e.end_char t
      (Nat.zero_le _)
      (fun f hf => by
        have hfm := List.mem_of_mem_filter hf
        exact ⟨he_rest f hfm, (hwf_rest f hfm).1⟩)
    show entStep allow e (rest.foldr (entStep allow) t) = _
    rw [ih t hrest_sort hwf_rest]
    by_cases hl : e.label_ ∈ allow
    · rw [List.filter_cons_of_pos (by simpa using hl)]
      unfold entStep
      rw [if_pos hl]
      have hcons : spliceAllAsc
          (e :: rest.filter (fun f => f.label_ ∈ allow)) t =
        t.take e.start_char ++ bracket e.label_ ++
          spliceAllAux (rest.filter (fun f => f.label_ ∈ allow)) e.end_char
            (t.drop e.end_char) := by
        show t.take (e.start_char - 0) ++ bracket e.label_ ++
            spliceAllAux (rest.filter (fun f => f.label_ ∈ allow)) e.end_char
              (t.drop (e.end_char - 0)) = _
        rw [Nat.sub_zero, Nat.sub_zero]
      rw [hcons]
      unfold spliceAllAsc
      unfold spliceAllAsc at hY
      rw [Nat.sub_zero] at hY
      rw [hY]
      set Y := spliceAllAux (rest.filter (fun f => f.label_ ∈ allow))
        e.end_char (t.drop e.end_char) with hYdef
      show (t.take e.end_char ++ Y).take e.start_char ++ bracket e.label_ ++
          (t.take e.end_char ++ Y).drop e.end_char =
        t.take e.start_char ++ bracket e.label_ ++ Y
      have hlen : (t.take e.end_char).length = e.end_char := by
        rw [List.length_take]
        omega
      rw [List.take_append_eq_append_take, List.drop_append_eq_append_drop,
        hlen]
      have g1 : Y.take (e.start_char - e.end_char) = [] := by
        have h0 : e.start_char - e.end_char = 0 := by omega
        rw [h0, List.take_zero]
      have g2 : (t.take e.end_char).drop e.end_char = [] :=
        List.drop_eq_nil_of_le (le_of_eq hlen)
      have g3 : Y.drop (e.end_char - e.end_char) = Y := by
        rw [Nat.sub_self, List.drop_zero]
      rw [g1, g2, g3, List.append_nil, List.nil_append, List.take_take]
      have hmin : min e.start_char e.end_char = e.start_char := by omega
      rw [hmin]
    · rw [List.filter_cons_of_neg (by simpa using hl)]
      unfold entStep
      rw [if_neg hl]

/-- C2: for the engine's entity list — ascending by start offset and
non-overlapping, each span within the text — the reverse-order
(rightmost-first) splicing loop of `clean_resume` equals simultaneous
replacement of exactly the allow-listed spans at their ORIGINAL offsets:
a span is replaced iff its label is allow-listed, spans with other labels
leave the text unchanged, and no earlier offset is invalidated by a
length-changing substitution. -/
theorem C2_entity_reverse_order_valid (allow : List String)
    (ents : List EntitySpan) (t : Str)
    (hsort : ents.Pairwise (fun a b => a.end_char ≤ b.start_char))
    (hwf : ∀ e ∈ ents, e.start_char ≤ e.end_char ∧ e.end_char ≤ t.length) :
    entityStage allow ents t =
      spliceAllAsc (ents.filter (fun e => e.label_ ∈ allow)) t := by
  rw [entityStage_eq_foldr]
  exact foldr_entStep_eq_spliceAllAsc allow ents t hsort hwf

/-- Witness for C2 on a concrete three-entity document with one
non-allow-listed label. -/
theorem C2_entity_reverse_order_valid_witness :
    ([⟨0, 2, "PERSON"⟩, ⟨8, 10, "ORG"⟩, ⟨11, 16, "GPE"⟩] :
        List EntitySpan).Pairwise (fun a b => a.end_char ≤ b.start_char) ∧
    (∀ e ∈ ([⟨0, 2, "PERSON"⟩, ⟨8, 10, "ORG"⟩, ⟨11, 16, "GPE"⟩] :
        List EntitySpan), e.start_char ≤ e.end_char ∧
        e.end_char ≤ "Jo went to Paris".data.length) ∧
    entityStage ["PERSON", "GPE"]
        [⟨0, 2, "PERSON"⟩, ⟨8, 10, "ORG"⟩, ⟨11, 16, "GPE"⟩]
        "Jo went to Paris".data =
      spliceAllAsc
        (([⟨0, 2, "PERSON"⟩, ⟨8, 10, "ORG"⟩, ⟨11, 16, "GPE"⟩] :
          List EntitySpan).filter (fun e => e.label_ ∈ ["PERSON", "GPE"]))
        "Jo went to Paris".data :=
  ⟨by decide, by decide,
    C2_entity_reverse_order_valid ["PERSON", "GPE"] _ _ (by decide) (by decide)⟩

/-! ## C9: character-set and single-space invariants of `clean_resume` -/

/-- The allow-set of the first normalization step with whitespace reduced
to the single space: ASCII letters, digits, space, and `.` `,` `-` `/`
`(` `)` `@` `+`. -/
def baseChar (c : Char) : Bool :=
  ('a' ≤ c && c ≤ 'z') || ('A' ≤ c && c ≤ 'Z') || ('0' ≤ c && c ≤ '9') ||
  c = ' ' || c = '.' || c = ',' || c = '-' || c = '/' || c = '(' ||
  c = ')' || c = '@' || c = '+'

/-- A character that may appear in `clean_resume` output: the base set
plus the brackets of redaction tokens. -/
def outChar (c : Char) : Bool := baseChar c || c = '[' || c = ']'

/-- Adjacent characters are not both spaces. -/
def noTwoSpace (a b : Char) : Prop := ¬(a = ' ' ∧ b = ' ')

/-- A redaction label whose characters stay inside the output character
set and contain no space (true of the five regex labels and of spaCy NER
label names). -/
def goodLabel (lbl : String) : Prop :=
  ∀ c ∈ lbl.data, baseChar c = true ∧ c ≠ ' '

lemma keepChar_not_ws_base {c : Char} (h : keepChar c = true)
    (hw : isPyWs c = false) : baseChar c = true := by
  simp only [keepChar, hw, Bool.or_eq_true, Bool.and_eq_true,
    decide_eq_true_eq] at h
  simp only [baseChar, Bool.or_eq_true, Bool.and_eq_true, decide_eq_true_eq]
  tauto

lemma collapseWsAux_mem :
    ∀ (l : Str) (b : Bool) (c : Char), c ∈ collapseWsAux b l →
      c = ' ' ∨ (c ∈ l ∧ isPyWs c = false) := by
  intro l
  induction l with
  | nil => intro b c h; simp [collapseWsAux] at h
  | cons a rest ih =>
    intro b c h
    by_cases hw : isPyWs a = true
    · cases b with
      | true =>
        rw [show collapseWsAux true (a :: rest) = collapseWsAux true rest by
          simp [collapseWsAux, hw]] at h
        rcases ih true c h with h1 | ⟨h1, h2⟩
        · exact Or.inl h1
        · exact Or.inr ⟨List.mem_cons_of_mem a h1, h2⟩
      | false =>
        rw [show collapseWsAux false (a :: rest) =
            ' ' :: collapseWsAux true rest by simp [collapseWsAux, hw]] at h
        rcases List.mem_cons.mp h with h1 | h1
        · exact Or.inl h1
        · rcases ih true c h1 with h2 | ⟨h2, h3⟩
          · exact Or.inl h2
          · exact Or.inr ⟨List.mem_cons_of_mem a h2, h3⟩
    · rw [show collapseWsAux b (a :: rest) = a :: collapseWsAux false rest by
        cases b <;> simp [collapseWsAux, hw]] at h
      rcases List.mem_cons.mp h with h1 | h1
      · refine Or.inr ⟨by rw [h1]; exact List.mem_cons_self a rest, ?_⟩
        rw [h1]
        cases hww : isPyWs a
        · rfl
        · exact absurd hww hw
      · rcases ih false c h1 with h2 | ⟨h2, h3⟩
        · exact Or.inl h2
        · exact Or.inr ⟨List.mem_cons_of_mem a h2, h3⟩

lemma collapseWsAux_chain :
    ∀ (l : Str) (b : Bool),
      (collapseWsAux b l).Chain' noTwoSpace ∧
      (b = true → ∀ y ∈ (collapseWsAux b l).head?, y ≠ ' ') := by
  intro l
  induction l with
  | nil =>
    intro b
    exact ⟨List.chain'_nil, fun _ y hy => by simp [collapseWsAux] at hy⟩
  | cons a rest ih =>
    intro b
    by_cases hw : isPyWs a = true
    · cases b with
      | true =>
        rw [show collapseWsAux true (a :: rest) = collapseWsAux true rest by
          simp [collapseWsAux, hw]]
        exact ih true
      | false =>
        rw [show collapseWsAux false (a :: rest) =
            ' ' :: collapseWsAux true rest by simp [collapseWsAux, hw]]
        refine ⟨List.chain'_cons'.mpr ⟨?_, (ih true).1⟩, ?_⟩
        · intro y hy h2
          exact (ih true).2 rfl y hy h2.2
        · intro hb
          simp at hb
    · rw [show collapseWsAux b (a :: rest) = a :: collapseWsAux false rest by
        cases b <;> simp [collapseWsAux, hw]]
      have ha : a ≠ ' ' := by
        intro hsp
        subst hsp
        simp [isPyWs] at hw
      refine ⟨List.chain'_cons'.mpr ⟨?_, (ih false).1⟩, ?_⟩
      · intro y _ h2
        exact ha h2.1
      · intro _ y hy
        rw [List.head?_cons, Option.mem_some_iff] at hy
        subst hy
        exact ha

lemma flip_noTwoSpace {l : Str} (h : l.Chain' noTwoSpace) :
    l.Chain' (flip noTwoSpace) :=
  h.imp (fun _ _ hab ⟨h1, h2⟩ => hab ⟨h2, h1⟩)

lemma chain'_rev {l : Str} (h : l.Chain' noTwoSpace) :
    l.reverse.Chain' noTwoSpace :=
  List.chain'_reverse.mpr (flip_noTwoSpace h)

lemma pyStrip_subset {s : Str} : ∀ c ∈ pyStrip s, c ∈ s := by
  intro c hc
  rw [pyStrip, List.mem_reverse] at hc
  have h1 := (List.dropWhile_suffix isPyWs).sublist.subset hc
  rw [List.mem_reverse] at h1
  exact (List.dropWhile_suffix isPyWs).sublist.subset h1

lemma pyStrip_chain {s : Str} (h : s.Chain' noTwoSpace) :
    (pyStrip s).Chain' noTwoSpace := by
  rw [pyStrip]
  apply chain'_rev
  exact (chain'_rev (h.suffix (List.dropWhile_suffix isPyWs))).suffix
    (List.dropWhile_suffix isPyWs)

lemma normalizeText_chars (s : Str) :
    ∀ c ∈ normalizeText s, baseChar c = true := by
  intro c hc
  have h1 := pyStrip_subset c hc
  rcases collapseWsAux_mem (s.filter keepChar) false c h1 with h2 | ⟨h2, h3⟩
  · subst h2
    decide
  · exact keepChar_not_ws_base (List.of_mem_filter h2) h3

lemma normalizeText_chain (s : Str) :
    (normalizeText s).Chain' noTwoSpace :=
  pyStrip_chain (collapseWsAux_chain (s.filter keepChar) false).1

instance (lbl : String) : Decidable (goodLabel lbl) := by
  unfold goodLabel; infer_instance

lemma bracket_ne_nil (lbl : String) : bracket lbl ≠ [] := by
  simp [bracket]

lemma mem_bracket {lbl : String} {c : Char} (h : c ∈ bracket lbl) :
    c = '[' ∨ c = ']' ∨ c ∈ lbl.data := by
  rcases List.mem_cons.mp h with h1 | h1
  · exact Or.inl h1
  · rcases List.mem_append.mp h1 with h2 | h2
    · exact Or.inr (Or.inr h2)
    · exact Or.inr (Or.inl (List.mem_singleton.mp h2))

lemma bracket_chars {lbl : String} (hl : goodLabel lbl) :
    ∀ c ∈ bracket lbl, outChar c = true := by
  intro c hc
  rcases mem_bracket hc with rfl | rfl | h
  · simp [outChar]
  · simp [outChar]
  · simp [outChar, (hl c h).1]

lemma bracket_ne_space {lbl : String} (hl : goodLabel lbl) :
    ∀ c ∈ bracket lbl, c ≠ ' ' := by
  intro c hc
  rcases mem_bracket hc with rfl | rfl | h
  · decide
  · decide
  · exact (hl c h).2

lemma chain'_of_no_space {r : Str} (hr : ∀ c ∈ r, c ≠ ' ') :
    r.Chain' noTwoSpace := by
  induction r with
  | nil => exact List.chain'_nil
  | cons a rest ih =>
    refine List.chain'_cons'.mpr ⟨fun y _ h2 => ?_,
      ih (fun c hc => hr c (List.mem_cons_of_mem a hc))⟩
    exact hr a (List.mem_cons_self a rest) h2.1

/-- Splicing a nonempty, space-free replacement between two
no-double-space pieces keeps the no-double-space property. -/
lemma chain'_three {t1 r t2 : Str} (h1 : t1.Chain' noTwoSpace)
    (h2 : t2.Chain' noTwoSpace) (hrne : r ≠ [])
    (hr : ∀ c ∈ r, c ≠ ' ') : (t1 ++ r ++ t2).Chain' noTwoSpace := by
  rw [List.append_assoc]
  refine List.chain'_append.mpr ⟨h1, List.chain'_append.mpr
    ⟨chain'_of_no_space hr, h2, fun x hx _ _ h3 => ?_⟩,
    fun x hx y hy h3 => ?_⟩
  · exact hr x (List.mem_of_mem_getLast? hx) h3.1
  · rw [List.head?_append_of_ne_nil _ hrne] at hy
    exact hr y (List.mem_of_mem_head? hy) h3.2

lemma substSpansAux_subset (repl : Str) :
    ∀ (spans : List (Nat × Nat)) (pos : Nat) (s : Str) (c : Char),
      c ∈ substSpansAux repl spans pos s → c ∈ repl ∨ c ∈ s := by
  intro spans
  induction spans with
  | nil => intro pos s c h; exact Or.inr h
  | cons sp rest ih =>
    intro pos s c h
    obtain ⟨a, b⟩ := sp
    rcases List.mem_append.mp h with h1 | h1
    · rcases List.mem_append.mp h1 with h2 | h2
      · exact Or.inr (List.take_subset _ _ h2)
      · exact Or.inl h2
    · rcases ih b (s.drop (b - pos)) c h1 with h2 | h2
      · exact Or.inl h2
      · exact Or.inr (List.drop_subset _ _ h2)

lemma substSpansAux_chain {repl : Str} (hrne : repl ≠ [])
    (hr : ∀ c ∈ repl, c ≠ ' ') :
    ∀ (spans : List (Nat × Nat)) (pos : Nat) (s : Str),
      s.Chain' noTwoSpace →
      (substSpansAux repl spans pos s).Chain' noTwoSpace := by
  intro spans
  induction spans with
  | nil => intro pos s h; exact h
  | cons sp rest ih =>
    intro pos s h
    obtain ⟨a, b⟩ := sp
    exact chain'_three (h.take _) (ih b _ (h.drop _)) hrne hr

lemma patternSub_chars {lbl : String} {p : Pattern} {s : Str}
    (hl : goodLabel lbl) (hs : ∀ c ∈ s, outChar c = true) :
    ∀ c ∈ patternSub lbl p s, outChar c = true := by
  intro c hc
  rcases substSpansAux_subset (bracket lbl) (p s) 0 s c hc with h | h
  · exact bracket_chars hl c h
  · exact hs c h

lemma patternSub_chain {lbl : String} {p : Pattern} {s : Str}
    (hl : goodLabel lbl) (hs : s.Chain' noTwoSpace) :
    (patternSub lbl p s).Chain' noTwoSpace :=
  substSpansAux_chain (bracket_ne_nil lbl) (bracket_ne_space hl) (p s) 0 s hs

lemma goodLabel_ADDRESS : goodLabel "ADDRESS" := by decide
lemma goodLabel_PHONE : goodLabel "PHONE" := by decide
lemma goodLabel_ZIP : goodLabel "ZIP" := by decide
lemma goodLabel_POBOX : goodLabel "POBOX" := by decide
lemma goodLabel_EMAIL : goodLabel "EMAIL" := by decide

lemma regexStage_eq (ctx : ResumeClassifier) (t : Str) :
    regexStage ctx t =
      patternSub "EMAIL" ctx.emailPat (patternSub "POBOX" ctx.poboxPat
        (patternSub "ZIP" ctx.zipPat (patternSub "PHONE" ctx.phonePat
          (patternSub "ADDRESS" ctx.addressPat t)))) := rfl

lemma regexStage_chars (ctx : ResumeClassifier) (t : Str)
    (ht : ∀ c ∈ t, outChar c = true) :
    ∀ c ∈ regexStage ctx t, outChar c = true := by
  rw [regexStage_eq]
  exact patternSub_chars goodLabel_EMAIL (patternSub_chars goodLabel_POBOX
    (patternSub_chars goodLabel_ZIP (patternSub_chars goodLabel_PHONE
      (patternSub_chars goodLabel_ADDRESS ht))))

lemma regexStage_chain (ctx : ResumeClassifier) (t : Str)
    (ht : t.Chain' noTwoSpace) :
    (regexStage ctx t).Chain' noTwoSpace := by
  rw [regexStage_eq]
  exact patternSub_chain goodLabel_EMAIL (patternSub_chain goodLabel_POBOX
    (patternSub_chain goodLabel_ZIP (patternSub_chain goodLabel_PHONE
      (patternSub_chain goodLabel_ADDRESS ht))))

lemma splice_subset {t : Str} {a b : Nat} {r : Str} :
    ∀ c ∈ splice t a b r, c ∈ r ∨ c ∈ t := by
  intro c hc
  rcases List.mem_append.mp hc with h1 | h1
  · rcases List.mem_append.mp h1 with h2 | h2
    · exact Or.inr (List.take_subset _ _ h2)
    · exact Or.inl h2
  · exact Or.inr (List.drop_subset _ _ h1)

lemma entityStage_chars (allow : List String) (ents : List EntitySpan)
    (t : Str) (hl : ∀ e ∈ ents, e.label_ ∈ allow → goodLabel e.label_)
    (ht : ∀ c ∈ t, outChar c = true) :
    ∀ c ∈ entityStage allow ents t, outChar c = true := by
  rw [entityStage_eq_foldr]
  induction ents with
  | nil => exact ht
  | cons e rest ih =>
    intro c hc
    show outChar c = true
    rw [List.foldr_cons] at hc
    unfold entStep at hc
    by_cases hm : e.label_ ∈ allow
    · rw [if_pos hm] at hc
      rcases splice_subset c hc with h1 | h1
      · exact bracket_chars (hl e (List.mem_cons_self e rest) hm) c h1
      · exact ih (fun f hf => hl f (List.mem_cons_of_mem e hf)) c h1
    · rw [if_neg hm] at hc
      exact ih (fun f hf => hl f (List.mem_cons_of_mem e hf)) c hc

lemma entityStage_chain (allow : List String) (ents : List EntitySpan)
    (t : Str) (hl : ∀ e ∈ ents, e.label_ ∈ allow → goodLabel e.label_)
    (ht : t.Chain' noTwoSpace) :
    (entityStage allow ents t).Chain' noTwoSpace := by
  rw [entityStage_eq_foldr]
  induction ents with
  | nil => exact ht
  | cons e rest ih =>
    rw [List.foldr_cons]
    unfold entStep
    by_cases hm : e.label_ ∈ allow
    · rw [if_pos hm]
      have hrest := ih (fun f hf => hl f (List.mem_cons_of_mem e hf))
      exact chain'_three (hrest.take _) (hrest.drop _) (bracket_ne_nil _)
        (bracket_ne_space (hl e (List.mem_cons_self e rest) hm))
    · rw [if_neg hm]
      exact ih (fun f hf => hl f (List.mem_cons_of_mem e hf))

lemma outChar_ws {c : Char} (h1 : outChar c = true) (h2 : isPyWs c = true) :
    c = ' ' := by
  simp only [isPyWs, Bool.or_eq_true, decide_eq_true_eq] at h2
  rcases h2 with ((((rfl | rfl) | rfl) | rfl) | rfl) | rfl
  · rfl
  all_goals exact absurd h1 (by decide)

/-- C9: whenever `clean_resume` succeeds and the ALLOW-LISTED labels
among the spans the NER engine returns (on the one text it is consulted
with) are space-free and inside the base character set — true of the
configured labels PERSON, GPE, LOC, while spans with other labels are
never spliced and need no assumption — every output character is in the
allow-set `[A-Za-z0-9 .,/()@+-]` or is one of the brackets `[` `]` of a
redaction token; the only whitespace character in the output is the
single space, and no two consecutive spaces occur. -/
theorem C9_clean_output_charset (ctx : ResumeClassifier) (s : Str)
    (out : Str) (h : clean_resume ctx (.str s) = .ok out)
    (hents : ∀ e ∈ ctx.nlpEnts (regexStage ctx (normalizeText s)),
      e.label_ ∈ ctx.entities → goodLabel e.label_) :
    (∀ c ∈ out, outChar c = true) ∧
    (∀ c ∈ out, isPyWs c = true → c = ' ') ∧
    out.Chain' noTwoSpace := by
  have hout : out = entityStage ctx.entities
      (ctx.nlpEnts (regexStage ctx (normalizeText s)))
      (regexStage ctx (normalizeText s)) := by
    by_cases he : (pyStrip s).isEmpty
    · rw [clean_resume] at h
      simp only [he, if_true] at h
      exact absurd h (by simp)
    · rw [clean_resume] at h
      simp only [he, if_false] at h
      exact (Except.ok.injEq _ _).mp h.symm
  have hT1chars := normalizeText_chars s
  have houtchar : ∀ c ∈ out, outChar c = true := by
    rw [hout]
    exact entityStage_chars _ _ _ hents
      (regexStage_chars ctx _ (fun c hc => by
        simp [outChar, hT1chars c hc]))
  refine ⟨houtchar, fun c hc hw => outChar_ws (houtchar c hc) hw, ?_⟩
  rw [hout]
  exact entityStage_chain _ _ _ hents
    (regexStage_chain ctx _ (normalizeText_chain s))

/-- A classifier whose engine reports both an allow-listed PERSON span
and a WORK_OF_ART span — a real `en_core_web_md` label whose underscore
falls outside the base character set — with only PERSON allow-listed. -/
def ctxEnts : ResumeClassifier where
  addressPat := fun _ => []
  phonePat := fun _ => []
  zipPat := fun _ => []
  poboxPat := fun _ => []
  emailPat := fun _ => []
  nlpEnts := fun _ => [⟨0, 4, "PERSON"⟩, ⟨5, 10, "WORK_OF_ART"⟩]
  entities := ["PERSON"]
  classes := ["A", "B"]
  embed := fun _ => []
  decisionFunction := fun _ => [5, 5]

/-- Witness for C9 on a concrete input whose engine output includes a
non-allow-listed WORK_OF_ART span, so the label hypothesis is exercised
non-vacuously and binds only the allow-listed PERSON label. -/
theorem C9_clean_output_charset_witness :
    clean_resume ctxEnts (.str "John  wrote\tMoby!!".data) =
      .ok (entityStage ctxEnts.entities
        (ctxEnts.nlpEnts (regexStage ctxEnts
          (normalizeText "John  wrote\tMoby!!".data)))
        (regexStage ctxEnts (normalizeText "John  wrote\tMoby!!".data))) ∧
    (∀ e ∈ ctxEnts.nlpEnts (regexStage ctxEnts
        (normalizeText "John  wrote\tMoby!!".data)),
        e.label_ ∈ ctxEnts.entities → goodLabel e.label_) ∧
    ((∀ c ∈ entityStage ctxEnts.entities
        (ctxEnts.nlpEnts (regexStage ctxEnts
          (normalizeText "John  wrote\tMoby!!".data)))
        (regexStage ctxEnts (normalizeText "John  wrote\tMoby!!".data)),
        outChar c = true) ∧
      (∀ c ∈ entityStage ctxEnts.entities
        (ctxEnts.nlpEnts (regexStage ctxEnts
          (normalizeText "John  wrote\tMoby!!".data)))
        (regexStage ctxEnts (normalizeText "John  wrote\tMoby!!".data)),
        isPyWs c = true → c = ' ') ∧
      (entityStage ctxEnts.entities
        (ctxEnts.nlpEnts (regexStage ctxEnts
          (normalizeText "John  wrote\tMoby!!".data)))
        (regexStage ctxEnts
          (normalizeText "John  wrote\tMoby!!".data))).Chain' noTwoSpace) :=
  ⟨by decide, by decide,
    C9_clean_output_charset ctxEnts "John  wrote\tMoby!!".data _
      (by decide) (by decide)⟩
